import Mathlib

/-!
Verification of the kusho-cli recording/transformation pipeline
(`src/recorder.js`, `src/index.js`).

The JavaScript source is shallowly embedded: every method of the
`KushoRecorder` class that the claims touch is translated into an
executable Lean definition over `String` / `List` data.  External
collaborators (the wait-enhancement analyzer, the file system, the
HTTP transport, interactive prompts) are passed in as explicit
parameters, exactly at the boundary where `recorder.js` calls them.
-/

/-! ## JavaScript string primitives

`recorder.js` manipulates strings with `split('\n')`, `trim()`,
`startsWith`, `includes`, `endsWith`, `join('\n')` and
`replace(pat, rep)` (first occurrence).  Each is modelled over the
character list of the string so that every definition is structurally
recursive and kernel-evaluable. -/

/-- Splits a character list at every occurrence of `sep`, JS
`String.prototype.split` semantics for a one-character separator:
`"" ↦ [""]`, separators at either end produce empty fields. -/
def splitCharAux (sep : Char) : List Char → List Char → List (List Char)
  | [], acc => [acc.reverse]
  | c :: cs, acc =>
    if c = sep then acc.reverse :: splitCharAux sep cs []
    else splitCharAux sep cs (c :: acc)

/-- JS `s.split('\n')`. -/
def jsSplitLines (s : String) : List String :=
  (splitCharAux (Char.ofNat 10) s.data []).map (fun l => ⟨l⟩)

/-- JS `Array.prototype.join(sep)`. -/
def jsJoin (sep : String) : List String → String
  | [] => ""
  | [x] => x
  | x :: xs => x ++ sep ++ jsJoin sep xs

/-- JS `s.trim()`: strip whitespace from both ends. -/
def jsTrim (s : String) : String :=
  ⟨((s.data.dropWhile Char.isWhitespace).reverse.dropWhile Char.isWhitespace).reverse⟩

/-- JS `s.startsWith(pat)`. -/
def jsStartsWith (s pat : String) : Bool :=
  pat.data.isPrefixOf s.data

/-- JS `s.endsWith(pat)`. -/
def jsEndsWith (s pat : String) : Bool :=
  pat.data.isSuffixOf s.data

/-- Occurrence check underlying JS `s.includes(pat)`: scans every
suffix of the subject for `pat` as a prefix. -/
def listContains (pat : List Char) : List Char → Bool
  | [] => pat.isEmpty
  | c :: rest => pat.isPrefixOf (c :: rest) || listContains pat rest

/-- JS `s.includes(pat)`. -/
def jsIncludes (s pat : String) : Bool :=
  listContains pat.data s.data

/-- One step of JS `s.replace(pat, rep)` with a string pattern: replace
the first occurrence of `pat` only, leave `s` unchanged when `pat` does
not occur. -/
def replaceFirstAux (pat rep : List Char) : List Char → List Char
  | [] => []
  | c :: rest =>
    if pat.isPrefixOf (c :: rest) then rep ++ (c :: rest).drop pat.length
    else c :: replaceFirstAux pat rep rest

/-- JS `s.replace(pat, rep)` for a non-empty string pattern. -/
def jsReplaceFirst (s pat rep : String) : String :=
  ⟨replaceFirstAux pat.data rep.data s.data⟩

/-- The apostrophe character, used inside the generated test header. -/
def quoteChar : Char := Char.ofNat 39

/-- A one-character string holding an apostrophe. -/
def aposStr : String := String.singleton quoteChar

/-! ## Script Transformer (`wrapInTestFunction`, recorder.js 423-459) -/

/-- The marker substring `test(` of the already-wrapped check. -/
def markerTest : String := "test("

/-- The marker substring `describe(` of the already-wrapped check. -/
def markerDescribe : String := "describe("

/-- recorder.js 425: `code.includes('test(') || code.includes('describe(')`. -/
def hasTestMarker (code : String) : Bool :=
  jsIncludes code markerTest || jsIncludes code markerDescribe

/-- The classification loop of `wrapInTestFunction` (recorder.js
435-446): walk the lines from the top, accumulating `imports` and
`setup` and advancing `testStartIndex` past every leading
declaration/setup line; stop at the first non-empty line matching
neither pattern.  Returns `(imports, setup, testStartIndex)`. -/
def scanLines : List String → Nat → String → String → Nat → String × String × Nat
  | [], _, imports, setup, tsi => (imports, setup, tsi)
  | l :: rest, i, imports, setup, tsi =>
    let t := jsTrim l
    if jsStartsWith t "import " || jsStartsWith t "const " || jsStartsWith t "require(" then
      scanLines rest (i + 1) (imports ++ l ++ "\n") setup (i + 1)
    else if jsIncludes t "test =" || jsIncludes t "browser =" || jsIncludes t "context =" then
      scanLines rest (i + 1) imports (setup ++ l ++ "\n") (i + 1)
    else if (t.data.length) > 0 then (imports, setup, tsi)
    else scanLines rest (i + 1) imports setup tsi

/-- The fixed text of the template literal up to and including the
`test(` call (recorder.js 451-454), split so that the `test(` marker is
one visible piece of the concatenation. -/
def wrapHeaderPre : String :=
  "\nconst \x7b test, expect \x7d = require(" ++ aposStr ++ "@playwright/test" ++ aposStr ++ ");\n\n"

/-- The rest of the `test(...)` header after the `test(` marker. -/
def wrapHeaderPost : String :=
  aposStr ++ "KushoAI Generated Test" ++ aposStr ++ ", async (\x7b page \x7d) => \x7b\n"

/-- The closing text of the template literal (recorder.js 456). -/
def wrapFooter : String := "\n\x7d);"

/-- Re-indentation of one body line (recorder.js 455):
`line.trim() ? '  ' + line : line`. -/
def indentLine (l : String) : String :=
  if jsTrim l = "" then l else "  " ++ l

/-- The wrapping branch of `wrapInTestFunction` (recorder.js 429-458),
taken when the code has no marker yet: hoist the leading import/setup
lines above a synthesized `test(...)` header and re-indent the
remaining lines inside it. -/
def wrapFresh (code : String) : String :=
  let lines := jsSplitLines code
  let scanned := scanLines lines 0 "" "" 0
  let imports := scanned.1
  let testStartIndex := scanned.2.2
  let testCode := jsJoin "\n" (lines.drop testStartIndex)
  let indented := jsJoin "\n" ((jsSplitLines testCode).map indentLine)
  imports ++ (wrapHeaderPre ++ markerTest ++ wrapHeaderPost) ++ indented ++ wrapFooter

/-- `wrapInTestFunction` (recorder.js 423-459): return the code
unchanged when it already contains a test/suite marker, otherwise wrap
it via `wrapFresh`. -/
def wrapInTestFunction (code : String) : String :=
  if hasTestMarker code = true then code else wrapFresh code

/-! ## Change-handling pipeline (`handleCodeUpdate`, recorder.js 114-142,
and the `fs.watch` callback of `startFileWatcher`, recorder.js 95-112)

The external analyzer (`wait-enhancer.js`, out of scope per the spec)
enters as the function pair `enhanceCode` / `analyzeAndSuggestWaits`. -/

/-- Observable outcome of one `handleCodeUpdate` call: the transformed
code that is buffered, printed, and handed to the `onUpdate` observer;
whether the external analyzer was invoked; and the suggestion lines
printed. -/
structure UpdateOutput where
  finalCode : String
  enhancerCalled : Bool
  suggestions : List String
deriving DecidableEq

/-- `handleCodeUpdate` (recorder.js 114-142): optionally enhance via the
external analyzer, print its suggestions, then wrap; the wrapped code is
stored into `this.currentCode` and passed to the observer. -/
def handleCodeUpdate (enhanceCode : String → String)
    (analyzeAndSuggestWaits : String → List String)
    (enableWaitEnhancement : Bool) (code : String) : UpdateOutput :=
  if enableWaitEnhancement then
    { finalCode := wrapInTestFunction (enhanceCode code)
      enhancerCalled := true
      suggestions := analyzeAndSuggestWaits code }
  else
    { finalCode := wrapInTestFunction code
      enhancerCalled := false
      suggestions := [] }

/-- One `change` notification of the `fs.watch` callback installed by
`startFileWatcher` (recorder.js 97-111).  `readResult` is the outcome of
`fs.readFileSync` (`none` models a throwing read, which is swallowed).
State is the `this.currentCode` buffer; the returned list holds the
transformed code of each fired transformation event.  Note the source
first stores the raw `newCode` into `currentCode` and then
`handleCodeUpdate` overwrites it with the wrapped code. -/
def fileWatcherChange (enhanceCode : String → String)
    (analyzeAndSuggestWaits : String → List String)
    (enableWaitEnhancement : Bool)
    (currentCode : String) (readResult : Option String) : String × List String :=
  match readResult with
  | none => (currentCode, [])
  | some newCode =>
    if newCode = currentCode then (currentCode, [])
    else
      let out := handleCodeUpdate enhanceCode analyzeAndSuggestWaits
        enableWaitEnhancement newCode
      (out.finalCode, [out.finalCode])

/-- Folds a sequence of change notifications through
`fileWatcherChange`, starting from buffer `currentCode`; returns the
final buffer and the concatenated list of fired transformation
events. -/
def runWrites (enhanceCode : String → String)
    (analyzeAndSuggestWaits : String → List String)
    (enableWaitEnhancement : Bool)
    (currentCode : String) : List (Option String) → String × List String
  | [] => (currentCode, [])
  | w :: ws =>
    let step := fileWatcherChange enhanceCode analyzeAndSuggestWaits
      enableWaitEnhancement currentCode w
    let rest := runWrites enhanceCode analyzeAndSuggestWaits
      enableWaitEnhancement step.1 ws
    (rest.1, step.2 ++ rest.2)

/-! ## Session state and `stopRecording` (recorder.js 144-166)

The subprocess handle and watcher handle are modelled by presence
booleans (`this.codegenProcess !== null`, `this.watcher !== null`); the
artifact file's on-disk state is an explicit `Option String` parameter
(`none` = `fs.existsSync(outputFile)` is false). -/

/-- The mutable fields of the `KushoRecorder` instance that
`stopRecording` / `stopWatching` touch. -/
structure SessionState where
  codegenProcess : Bool
  watcher : Bool
  currentCode : String
deriving DecidableEq

/-- `stopWatching` (recorder.js 161-166): close and null the watcher if
one is present. -/
def stopWatching (s : SessionState) : SessionState :=
  if s.watcher then { s with watcher := false } else s

/-- `stopRecording` (recorder.js 144-159): kill the subprocess if
present, tear down the watcher, then return the artifact file's on-disk
content when the file exists and the `currentCode` buffer otherwise.
Returns the new state paired with the returned code. -/
def stopRecording (s : SessionState) (outputFile : Option String) :
    SessionState × String :=
  let s1 := if s.codegenProcess then { s with codegenProcess := false } else s
  let s2 := stopWatching s1
  match outputFile with
  | some content => (s2, content)
  | none => (s2, s2.currentCode)

/-! ## Collision-free saving (`saveCodeToUniqueFile`, recorder.js 221-236)

The recordings directory is modelled as the list of filenames that
exist in it; `fs.existsSync(path.join(recordingDir, f))` is `f ∈ fs`. -/

/-- The candidate filename `` `${baseName}-${counter}.js` `` of one
iteration of the `while` loop (recorder.js 229). -/
def uniqueCandidate (baseName : String) (counter : Nat) : String :=
  baseName ++ "-" ++ Nat.repr counter ++ ".js"

/-- The `while (fs.existsSync(fullPath))` loop of `saveCodeToUniqueFile`
(recorder.js 228-232), made structural with explicit fuel; the theorems
below show the chosen fuel always suffices, so the out-of-fuel branch is
never reached. -/
def saveLoop (fs : List String) (baseName : String) : Nat → Nat → String
  | 0, counter => uniqueCandidate baseName counter
  | fuel + 1, counter =>
    let finalFilename := uniqueCandidate baseName counter
    if finalFilename ∈ fs then saveLoop fs baseName fuel (counter + 1)
    else finalFilename

/-- `saveCodeToUniqueFile` (recorder.js 221-236): strip the first
`.js` occurrence to get `baseName`, then bump `-1`, `-2`, ... until the
name is free; returns the filename written. -/
def saveCodeToUniqueFile (fs : List String) (filename : String) : String :=
  let baseName := jsReplaceFirst filename ".js" ""
  if filename ∈ fs then saveLoop fs baseName (fs.length + 1) 1
  else filename

/-! ## Session close and the filename prompt (recorder.js 65-68, 184-219) -/

/-- The observable actions of `promptForFilename`: whether the
"No code to save" warning fired, whether the interactive filename
question was asked, which file (if any) was written, and whether the
editor was launched on it. -/
structure SessionEnd where
  warnedNoCode : Bool
  filenamePromptIssued : Bool
  savedFile : Option String
  editorOpened : Bool
deriving DecidableEq

/-- `promptForFilename` (recorder.js 184-219).  `userInput` is the line
the user answers to the filename question; `defaultName` stands for the
timestamp-generated `` `kusho-test-${timestamp}` `` fallback (the clock
is external).  When the buffer is empty or whitespace-only the method
warns and returns before any prompt, save or editor launch. -/
def promptForFilename (fs : List String) (currentCode : String)
    (userInput : String) (defaultName : String) : SessionEnd :=
  if currentCode = "" || jsTrim currentCode = "" then
    { warnedNoCode := true, filenamePromptIssued := false
      savedFile := none, editorOpened := false }
  else
    let filename := if userInput = "" || jsTrim userInput = "" then defaultName
      else userInput
    let filename := if jsEndsWith filename ".js" then filename
      else filename ++ ".js"
    let finalPath := saveCodeToUniqueFile fs filename
    { warnedNoCode := false, filenamePromptIssued := true
      savedFile := some finalPath, editorOpened := true }

/-- The `close` handler installed on the codegen subprocess by
`startRecording` (recorder.js 65-68): tear down the watcher, then run
`promptForFilename` on the current buffer. -/
def onCodegenClose (s : SessionState) (fs : List String)
    (userInput : String) (defaultName : String) : SessionState × SessionEnd :=
  let s1 := stopWatching s
  (s1, promptForFilename fs s1.currentCode userInput defaultName)

/-! ## Editor fallthrough (`openEditorInTerminal` / `tryTerminalEditor`,
recorder.js 238-273)

The environment decides, per editor name, whether `spawn` fails to
launch (the `error` event) or the editor runs and exits with a code
(the `close` event). -/

/-- Outcome of spawning one candidate editor. -/
inductive EditorOutcome where
  | launchError
  | exited (code : Int)
deriving DecidableEq

/-- How the edit phase ends: no candidate launched (manual-edit hint,
no extension), the editor exited nonzero (warning, no extension), or it
exited zero and `extendScriptWithAPI` was invoked on the file. -/
inductive EditResult where
  | noEditorFound
  | editedWithErrors (code : Int)
  | extensionTriggered
deriving DecidableEq

/-- `tryTerminalEditor` (recorder.js 248-273), recursing over the list
of remaining candidates instead of an index into the fixed array: past
the end report "No terminal editor found"; on `error` fall through to
the next candidate; on `close` with code 0 trigger the extension step,
otherwise warn and stop. -/
def tryTerminalEditor (behavior : String → EditorOutcome) :
    List String → EditResult
  | [] => .noEditorFound
  | e :: rest =>
    match behavior e with
    | .launchError => tryTerminalEditor behavior rest
    | .exited c => if c = 0 then .extensionTriggered else .editedWithErrors c

/-- The candidate list of `openEditorInTerminal` (recorder.js 243). -/
def terminalEditors : List String := ["nano", "vim", "vi"]

/-- `openEditorInTerminal` (recorder.js 238-246). -/
def openEditorInTerminal (behavior : String → EditorOutcome) : EditResult :=
  tryTerminalEditor behavior terminalEditors

/-! ## JavaScript values and the extension client
(recorder.js 317-355, 367-415)

`JSON.parse` is a platform builtin; its outcome on the response body
enters the model as an `Option JsValue` (`none` = the parse threw). -/

/-- A JavaScript value as far as the recorder observes one: the
possible results of `JSON.parse` plus `undefined` for missing
properties.  Numbers are integral (the service's script fields are
strings; no float arithmetic is performed on them). -/
inductive JsValue where
  | vUndefined
  | vNull
  | vBool (b : Bool)
  | vNum (n : Int)
  | vStr (s : String)
  | vArr (elems : List JsValue)
  | vObj (fields : List (String × JsValue))

/-- JS truthiness of a value, as tested by `||`. -/
def jsTruthy : JsValue → Bool
  | .vUndefined => false
  | .vNull => false
  | .vBool b => b
  | .vNum n => !(n == 0)
  | .vStr s => !(s == "")
  | .vArr _ => true
  | .vObj _ => true

/-- JS `a || b`. -/
def jsOr (a b : JsValue) : JsValue :=
  if jsTruthy a then a else b

/-- JS property access `v[k]` on a value known not to be `null` or
`undefined`: field lookup on objects, `undefined` otherwise. -/
def getProp : JsValue → String → JsValue
  | .vObj fields, k =>
    match fields.lookup k with
    | some v => v
    | none => .vUndefined
  | _, _ => .vUndefined

/-- The `res.on('end')` success branch of `callExtendAPI`
(recorder.js 395-401): `JSON.parse` the accumulated body inside a
`try`; on success resolve `response.extendedScript || response.script
|| data`; the `catch` resolves the raw `data` both when the parse threw
and when the property access threw (`response` being `null`; the
`undefined` case cannot arise from `JSON.parse` but would throw the
same way). -/
def resolveExtendResponse (data : String) (parsed : Option JsValue) : JsValue :=
  match parsed with
  | none => .vStr data
  | some .vNull => .vStr data
  | some .vUndefined => .vStr data
  | some v => jsOr (getProp v "extendedScript") (jsOr (getProp v "script") (.vStr data))

/-- What the single HTTPS exchange of `callExtendAPI` produced: either a
complete response (status, body, and the outcome of `JSON.parse` on
that body) or a transport-level error (the `req.on('error')` path). -/
inductive HttpResult where
  | response (statusCode : Nat) (data : String) (parsed : Option JsValue)
  | transportError (message : String)

/-- `callExtendAPI` (recorder.js 367-415): any 2xx status resolves via
`resolveExtendResponse`; anything else rejects with the status and raw
body; a transport error rejects with its message. -/
def callExtendAPI : HttpResult → Except String JsValue
  | .response status data parsed =>
    if 200 ≤ status ∧ status < 300 then .ok (resolveExtendResponse data parsed)
    else .error ("API returned status " ++ Nat.repr status ++ ": " ++ data)
  | .transportError msg => .error msg

/-- `fs.writeFileSync(filePath, extendedScript)` on the success path of
`extendScriptWithAPI` (recorder.js 340): writes the string payload; a
non-string payload makes `writeFileSync` throw `TypeError`, which the
surrounding `catch` swallows, leaving the file as it was. -/
def writeExtended (v : JsValue) (orig : String) : String :=
  match v with
  | .vStr s => s
  | _ => orig

/-- `extendScriptWithAPI` (recorder.js 317-355) restricted to the target
file's content: on a resolved API call the result is written over the
file; on a rejected call the `catch` block only prints, so the file
keeps its pre-call content. -/
def extendScriptWithAPI (fileContent : String) (http : HttpResult) : String :=
  match callExtendAPI http with
  | .ok v => writeExtended v fileContent
  | .error _ => fileContent

/-! ## Credential store (recorder.js 275-315) -/

/-- Outcome of `fs.existsSync` + `fs.readFileSync` on the credential
file: absent, present but unreadable (read throws), or its text. -/
inductive FileRead where
  | missing
  | unreadable
  | content (s : String)

/-- `promptForCredentials` (recorder.js 288-315): ask email, ask token,
then try to persist; the write may fail (`persistOk = false` prints the
warning) but the collected pair is resolved either way.  Returns the
resolved `{email, token}` object and whether the persist warning was
printed. -/
def promptForCredentials (email token : String) (persistOk : Bool) :
    JsValue × Bool :=
  (.vObj [("email", .vStr email), ("token", .vStr token)], !persistOk)

/-- `getCredentials` (recorder.js 275-286): try to read and
`JSON.parse` the credential file — a missing file, a throwing read, or
a throwing parse all fall through to `promptForCredentials`.  `parse`
is the `JSON.parse` outcome on the file text.  Returns the credentials
value and whether the interactive prompt ran. -/
def getCredentials (file : FileRead) (parse : String → Option JsValue)
    (email token : String) (persistOk : Bool) : JsValue × Bool :=
  match file with
  | .content s =>
    match parse s with
    | some v => (v, false)
    | none => ((promptForCredentials email token persistOk).1, true)
  | .missing => ((promptForCredentials email token persistOk).1, true)
  | .unreadable => ((promptForCredentials email token persistOk).1, true)

/-! ## Decimal-numeral facts used by the `saveCodeToUniqueFile` proofs

`` `${counter}` `` stringifies the counter in decimal, i.e. `Nat.repr`.
The inverse digit map below lets us prove `Nat.repr` injective. -/

/-- Inverse of `Nat.digitChar` on decimal digits. -/
def unDigitChar (c : Char) : Nat :=
  if c = '0' then 0 else
  if c = '1' then 1 else
  if c = '2' then 2 else
  if c = '3' then 3 else
  if c = '4' then 4 else
  if c = '5' then 5 else
  if c = '6' then 6 else
  if c = '7' then 7 else
  if c = '8' then 8 else
  if c = '9' then 9 else 0

/-! # Theorems -/

/-! ## Decimal stringification is injective -/

/-- `unDigitChar` inverts `Nat.digitChar` on decimal digits. -/
theorem unDigitChar_digitChar : ∀ d : Nat, d < 10 → unDigitChar (Nat.digitChar d) = d := by
  decide

/-- With enough fuel, `Nat.toDigitsCore` at base 10 emits the reversed
decimal digit list of `n`, mapped through `Nat.digitChar`, in front of
the accumulator. -/
theorem toDigitsCore_eq_digits (fuel : Nat) : ∀ n : Nat, ∀ ds : List Char,
    0 < n → n ≤ fuel →
    Nat.toDigitsCore 10 fuel n ds =
      ((Nat.digits 10 n).map Nat.digitChar).reverse ++ ds := by
  induction fuel with
  | zero => intro n ds h0 hf; omega
  | succ f ih =>
    intro n ds h0 hf
    have hunfold : Nat.toDigitsCore 10 (f + 1) n ds =
        (if n / 10 = 0 then Nat.digitChar (n % 10) :: ds
         else Nat.toDigitsCore 10 f (n / 10) (Nat.digitChar (n % 10) :: ds)) := by
      simp [Nat.toDigitsCore]
    rw [hunfold, Nat.digits_def' (by norm_num : (1 : Nat) < 10) h0]
    by_cases hd : n / 10 = 0
    · simp [hd]
    · have hdpos : 0 < n / 10 := Nat.pos_of_ne_zero hd
      have hdle : n / 10 ≤ f := by
        have := Nat.div_lt_self h0 (by norm_num : (1 : Nat) < 10)
        omega
      rw [if_neg hd, ih (n / 10) (Nat.digitChar (n % 10) :: ds) hdpos hdle]
      simp

/-- `Nat.toDigits 10 n` is the reversed mapped digit list for positive `n`. -/
theorem toDigits_eq_digits (n : Nat) (h0 : 0 < n) :
    Nat.toDigits 10 n = ((Nat.digits 10 n).map Nat.digitChar).reverse := by
  rw [Nat.toDigits, toDigitsCore_eq_digits (n + 1) n [] h0 (by omega), List.append_nil]

/-- A positive number never stringifies to the digit list of zero. -/
theorem toDigits_pos_ne_zero (n : Nat) (h0 : 0 < n) :
    Nat.toDigits 10 n ≠ Nat.toDigits 10 0 := by
  intro h
  rw [toDigits_eq_digits n h0] at h
  have h1 : (Nat.digits 10 n).map Nat.digitChar = ['0'] := by
    have := congrArg List.reverse h
    simpa using this
  rcases hL : Nat.digits 10 n with _ | ⟨a, t⟩
  · rw [hL] at h1; simp at h1
  · rw [hL] at h1
    rcases t with _ | ⟨b, t'⟩
    · simp at h1
      have ha : a < 10 := Nat.digits_lt_base (by norm_num) (by rw [hL]; exact List.mem_cons_self a [])
      have ha0 : a = 0 := by
        have := congrArg unDigitChar h1
        rwa [unDigitChar_digitChar a ha] at this
      have := Nat.ofDigits_digits 10 n
      rw [hL, ha0] at this
      simp [Nat.ofDigits] at this
      omega
    · simp at h1

/-- Decimal stringification of naturals is injective. -/
theorem natRepr_injective : Function.Injective Nat.repr := by
  intro m n h
  have hd : Nat.toDigits 10 m = Nat.toDigits 10 n := by
    have := congrArg String.data h
    simpa [Nat.repr, List.asString] using this
  rcases Nat.eq_zero_or_pos m with hm | hm
  · rcases Nat.eq_zero_or_pos n with hn | hn
    · omega
    · exact absurd (hm ▸ hd).symm (toDigits_pos_ne_zero n hn)
  · rcases Nat.eq_zero_or_pos n with hn | hn
    · exact absurd (hn ▸ hd) (toDigits_pos_ne_zero m hm)
    · rw [toDigits_eq_digits m hm, toDigits_eq_digits n hn] at hd
      have h2 : (Nat.digits 10 m).map Nat.digitChar =
          (Nat.digits 10 n).map Nat.digitChar := List.reverse_injective hd
      have key : ∀ l : List Nat, (∀ a ∈ l, a < 10) →
          (l.map Nat.digitChar).map unDigitChar = l := by
        intro l hl
        induction l with
        | nil => rfl
        | cons a t iht =>
          simp only [List.map_cons]
          rw [iht (fun b hb => hl b (List.mem_cons_of_mem a hb)),
            unDigitChar_digitChar a (hl a (List.mem_cons_self a t))]
      have h3 : Nat.digits 10 m = Nat.digits 10 n := by
        have h4 := congrArg (List.map unDigitChar) h2
        rwa [key _ (fun a ha => Nat.digits_lt_base (by norm_num) ha),
          key _ (fun a ha => Nat.digits_lt_base (by norm_num) ha)] at h4
      have h5 := congrArg (Nat.ofDigits 10) h3
      rwa [Nat.ofDigits_digits, Nat.ofDigits_digits] at h5

/-! ## `saveCodeToUniqueFile` lemmas -/

/-- Distinct counters give distinct candidate filenames. -/
theorem uniqueCandidate_injective (base : String) :
    Function.Injective (uniqueCandidate base) := by
  intro a b h
  unfold uniqueCandidate at h
  have hd := congrArg String.data h
  simp only [String.data_append, List.append_assoc] at hd
  have h1 := List.append_cancel_left hd
  have h2 := List.append_cancel_left h1
  have h3 := List.append_cancel_right h2
  exact natRepr_injective (String.ext h3)

/-- Among the first `fs.length + 1` candidate names, at least one is
not an existing file: the finite directory cannot hold them all. -/
theorem exists_free_candidate (fs : List String) (base : String) :
    ∃ i, i < fs.length + 1 ∧ uniqueCandidate base (1 + i) ∉ fs := by
  by_contra hcon
  push_neg at hcon
  have hsub : (List.range' 1 (fs.length + 1)).map (uniqueCandidate base) ⊆ fs := by
    intro y hy
    rw [List.mem_map] at hy
    obtain ⟨k, hk, rfl⟩ := hy
    rw [List.mem_range'_1] at hk
    have := hcon (k - 1) (by omega)
    have hk1 : 1 + (k - 1) = k := by omega
    rwa [hk1] at this
  have hnodup : ((List.range' 1 (fs.length + 1)).map (uniqueCandidate base)).Nodup :=
    (List.nodup_range' 1 (fs.length + 1)).map (uniqueCandidate_injective base)
  have hle := (List.subperm_of_subset hnodup hsub).length_le
  simp at hle

/-- Full behaviour of the bump loop, given that some candidate within
the fuel window is free: the result is the first free candidate, every
earlier candidate exists. -/
theorem saveLoop_spec (fs : List String) (base : String) : ∀ fuel counter : Nat,
    (∃ i, i < fuel ∧ uniqueCandidate base (counter + i) ∉ fs) →
    ∃ j, j < fuel ∧ saveLoop fs base fuel counter = uniqueCandidate base (counter + j) ∧
      uniqueCandidate base (counter + j) ∉ fs ∧
      ∀ i, i < j → uniqueCandidate base (counter + i) ∈ fs := by
  intro fuel
  induction fuel with
  | zero => rintro counter ⟨i, hi, -⟩; omega
  | succ f ih =>
    rintro counter ⟨i, hi, hfree⟩
    by_cases hc : uniqueCandidate base counter ∈ fs
    · have hi0 : i ≠ 0 := by
        rintro rfl
        exact hfree (by simpa using hc)
      obtain ⟨i', rfl⟩ : ∃ i', i = i' + 1 := ⟨i - 1, by omega⟩
      have hshift : counter + (i' + 1) = counter + 1 + i' := by omega
      obtain ⟨j, hj, heq, hfree', hall⟩ :=
        ih (counter + 1) ⟨i', by omega, by rwa [hshift] at hfree⟩
      refine ⟨j + 1, by omega, ?_, ?_, ?_⟩
      · rw [saveLoop, if_pos hc, heq]
        congr 1
        omega
      · have : counter + (j + 1) = counter + 1 + j := by omega
        rwa [this]
      · intro k hk
        match k with
        | 0 => simpa using hc
        | k + 1 =>
          have : counter + (k + 1) = counter + 1 + k := by omega
          rw [this]
          exact hall k (by omega)
    · refine ⟨0, by omega, ?_, by simpa using hc, fun i hi => absurd hi (by omega)⟩
      rw [saveLoop, if_neg hc]
      simp

/-- Stripping the first `.js` occurrence from `x ++ ".js"` recovers `x`
when `x` itself contains no `.js`: the pattern cannot straddle the
boundary because none of its proper prefixes is one of its proper
suffixes. -/
theorem replaceFirst_js_append (l : List Char)
    (h : listContains ['.', 'j', 's'] l = false) :
    replaceFirstAux ['.', 'j', 's'] [] (l ++ ['.', 'j', 's']) = l := by
  induction l with
  | nil => rfl
  | cons c rest ih =>
    have h2 : (['.', 'j', 's'].isPrefixOf (c :: rest)) = false ∧
        listContains ['.', 'j', 's'] rest = false := by
      simpa [listContains, Bool.or_eq_false_iff] using h
    have hpre : (['.', 'j', 's'].isPrefixOf (c :: (rest ++ ['.', 'j', 's']))) = false := by
      rcases rest with _ | ⟨d, rest1⟩
      · simp [List.isPrefixOf]
      · rcases rest1 with _ | ⟨e, rest2⟩
        · simp [List.isPrefixOf]
        · have heq : (['.', 'j', 's'].isPrefixOf (c :: d :: e :: (rest2 ++ ['.', 'j', 's']))) =
              (['.', 'j', 's'].isPrefixOf (c :: d :: e :: rest2)) := by
            simp [List.isPrefixOf]
          simpa [heq] using h2.1
    rw [List.cons_append, replaceFirstAux, if_neg (by rw [hpre]; exact Bool.false_ne_true)]
    rw [ih h2.2]

/-- Stripping `.js` (first occurrence) from `x ++ ".js"` yields `x`
whenever `x` itself does not contain `.js`. -/
theorem jsReplaceFirst_strip_js (x : String) (hx : jsIncludes x ".js" = false) :
    jsReplaceFirst (x ++ ".js") ".js" "" = x := by
  have hjs : (".js" : String).data = ['.', 'j', 's'] := rfl
  apply String.ext
  show replaceFirstAux (".js" : String).data ("" : String).data (x ++ ".js").data = x.data
  rw [String.data_append, hjs, show ("" : String).data = [] from rfl]
  exact replaceFirst_js_append x.data (by unfold jsIncludes at hx; rwa [hjs] at hx)

/-- C4: saving `x.js` when `x.js` already exists on disk produces
`x-1.js`; when `x-1.js` also exists it produces `x-2.js`, and so on
with increasing counters (the result is the first free candidate and
every earlier candidate exists); the chosen name never collides with an
existing file, so nothing is overwritten. -/
theorem saveCodeToUniqueFile_never_overwrites (fs : List String) (x : String)
    (hx : jsIncludes x ".js" = false) :
    saveCodeToUniqueFile fs (x ++ ".js") ∉ fs ∧
    ((x ++ ".js") ∉ fs → saveCodeToUniqueFile fs (x ++ ".js") = x ++ ".js") ∧
    ((x ++ ".js") ∈ fs → ∃ k, 1 ≤ k ∧
      saveCodeToUniqueFile fs (x ++ ".js") = uniqueCandidate x k ∧
      uniqueCandidate x k ∉ fs ∧
      ∀ j, 1 ≤ j → j < k → uniqueCandidate x j ∈ fs) := by
  have hbase := jsReplaceFirst_strip_js x hx
  have hdef : saveCodeToUniqueFile fs (x ++ ".js") =
      if (x ++ ".js") ∈ fs then
        saveLoop fs (jsReplaceFirst (x ++ ".js") ".js" "") (fs.length + 1) 1
      else x ++ ".js" := rfl
  rw [hbase] at hdef
  by_cases hmem : (x ++ ".js") ∈ fs
  · rw [if_pos hmem] at hdef
    obtain ⟨i, hi, hfree⟩ := exists_free_candidate fs x
    obtain ⟨j, hj, heq, hfreej, hall⟩ :=
      saveLoop_spec fs x (fs.length + 1) 1 ⟨i, hi, hfree⟩
    refine ⟨?_, fun hn => absurd hmem hn, fun _ => ⟨1 + j, by omega, ?_, hfreej, ?_⟩⟩
    · rw [hdef, heq]; exact hfreej
    · rw [hdef, heq]
    · intro j' h1 h2
      have hj' : j' = 1 + (j' - 1) := by omega
      rw [hj']
      exact hall (j' - 1) (by omega)
  · rw [if_neg hmem] at hdef
    exact ⟨by rw [hdef]; exact hmem, fun _ => hdef, fun h => absurd h hmem⟩

/-- Witness for `saveCodeToUniqueFile_never_overwrites` at the concrete
directory `["x.js", "x-1.js"]` and filename `x.js`. -/
theorem saveCodeToUniqueFile_never_overwrites_witness :
    jsIncludes "x" ".js" = false ∧
    (saveCodeToUniqueFile ["x.js", "x-1.js"] ("x" ++ ".js") ∉ ["x.js", "x-1.js"] ∧
     (("x" ++ ".js") ∉ (["x.js", "x-1.js"] : List String) →
       saveCodeToUniqueFile ["x.js", "x-1.js"] ("x" ++ ".js") = "x" ++ ".js") ∧
     (("x" ++ ".js") ∈ (["x.js", "x-1.js"] : List String) → ∃ k, 1 ≤ k ∧
       saveCodeToUniqueFile ["x.js", "x-1.js"] ("x" ++ ".js") = uniqueCandidate "x" k ∧
       uniqueCandidate "x" k ∉ (["x.js", "x-1.js"] : List String) ∧
       ∀ j, 1 ≤ j → j < k → uniqueCandidate "x" j ∈ (["x.js", "x-1.js"] : List String))) :=
  ⟨by decide, saveCodeToUniqueFile_never_overwrites ["x.js", "x-1.js"] "x" (by decide)⟩

/-! ## Wrapping is idempotent once applied (C3) -/

/-- A pattern is found by `listContains` in any list that contains it
contiguously. -/
theorem listContains_of_append (pat : List Char) : ∀ pre post : List Char,
    listContains pat (pre ++ (pat ++ post)) = true := by
  intro pre
  induction pre with
  | nil =>
    intro post
    rcases hp : pat ++ post with _ | ⟨c, rest⟩
    · have hpat : pat = [] := by
        cases pat with
        | nil => rfl
        | cons a t => simp at hp
      rw [hpat]
      rfl
    · show (pat.isPrefixOf (c :: rest) || listContains pat rest) = true
      have hpre : pat.isPrefixOf (c :: rest) = true := by
        rw [List.isPrefixOf_iff_prefix, ← hp]
        exact List.prefix_append pat post
      rw [hpre, Bool.true_or]
  | cons c pre' ih =>
    intro post
    show (pat.isPrefixOf (c :: (pre' ++ (pat ++ post))) ||
      listContains pat (pre' ++ (pat ++ post))) = true
    rw [ih post, Bool.or_true]

/-- Any string of the shape produced by `wrapFresh` contains the
`test(` marker, hence passes the already-wrapped check. -/
theorem hasTestMarker_of_shape (a b : String) :
    hasTestMarker (a ++ (wrapHeaderPre ++ markerTest ++ wrapHeaderPost) ++ b ++ wrapFooter)
      = true := by
  have h := listContains_of_append markerTest.data (a.data ++ wrapHeaderPre.data)
    (wrapHeaderPost.data ++ (b.data ++ wrapFooter.data))
  have hshape : (a ++ (wrapHeaderPre ++ markerTest ++ wrapHeaderPost) ++ b ++ wrapFooter).data
      = (a.data ++ wrapHeaderPre.data) ++
        (markerTest.data ++ (wrapHeaderPost.data ++ (b.data ++ wrapFooter.data))) := by
    simp [String.data_append, List.append_assoc]
  rw [hasTestMarker, jsIncludes, hshape, h, Bool.true_or]

/-- The output of the wrapping branch always carries the marker. -/
theorem hasTestMarker_wrapFresh (code : String) :
    hasTestMarker (wrapFresh code) = true := by
  show hasTestMarker
    ((scanLines (jsSplitLines code) 0 "" "" 0).1 ++
      (wrapHeaderPre ++ markerTest ++ wrapHeaderPost) ++
      jsJoin "\n" ((jsSplitLines (jsJoin "\n"
        ((jsSplitLines code).drop (scanLines (jsSplitLines code) 0 "" "" 0).2.2))).map
          indentLine) ++ wrapFooter) = true
  exact hasTestMarker_of_shape _ _

/-- C3: for every code string without a `test(` or `describe(` marker
substring, wrapping is idempotent once applied — the first wrap plants
a `test(` marker, so the second application's marker check makes it a
no-op: `wrap (wrap c) = wrap c`. -/
theorem wrapInTestFunction_idempotent (c : String)
    (h1 : jsIncludes c markerTest = false) (h2 : jsIncludes c markerDescribe = false) :
    wrapInTestFunction (wrapInTestFunction c) = wrapInTestFunction c := by
  have hmark : hasTestMarker c = false := by
    rw [hasTestMarker, h1, h2]
    rfl
  have hfirst : wrapInTestFunction c = wrapFresh c := by
    rw [wrapInTestFunction, if_neg (by rw [hmark]; exact Bool.false_ne_true)]
  rw [hfirst, wrapInTestFunction, if_pos (hasTestMarker_wrapFresh c)]

/-- Witness for `wrapInTestFunction_idempotent` at the one-line script
`await page.click(x)`. -/
theorem wrapInTestFunction_idempotent_witness :
    (jsIncludes "await page.click(x)" markerTest = false ∧
     jsIncludes "await page.click(x)" markerDescribe = false) ∧
    wrapInTestFunction (wrapInTestFunction "await page.click(x)") =
      wrapInTestFunction "await page.click(x)" :=
  ⟨⟨by decide, by decide⟩,
    wrapInTestFunction_idempotent "await page.click(x)" (by decide) (by decide)⟩

/-! ## Enhancement flag (C7) -/

/-- C7: with wait enhancement disabled, the change-handling pipeline's
output is exactly `wrapInTestFunction code` for every code string and
every analyzer: the enhancement stage is skipped outright — the
analyzer pair is never invoked and no suggestions are printed. -/
theorem handleCodeUpdate_disabled_eq_wrap (enhanceCode : String → String)
    (analyzeAndSuggestWaits : String → List String) (code : String) :
    handleCodeUpdate enhanceCode analyzeAndSuggestWaits false code =
      { finalCode := wrapInTestFunction code
        enhancerCalled := false
        suggestions := [] } := rfl

/-! ## De-duplication of identical writes (C1)

The source intends to skip identical writes ("Only process if code
actually changed", recorder.js 102), but `handleCodeUpdate` overwrites
the comparison buffer `this.currentCode` with the *wrapped* code
(recorder.js 136), so the next notification carrying the same raw bytes
differs from the buffer and is processed again. -/

/-- C1 (refutation): two consecutive byte-identical writes of `"x"`
each fire a transformation event — the observable event list has length
2, not 1 as the de-duplication contract demands. -/
theorem runWrites_identical_writes_fire_twice :
    (runWrites (fun c => c) (fun _ => []) false "" [some "x", some "x"]).2 =
      [wrapInTestFunction "x", wrapInTestFunction "x"] ∧
    (runWrites (fun c => c) (fun _ => []) false "" [some "x", some "x"]).2.length = 2 :=
  ⟨rfl, rfl⟩

/-! ## `stopRecording` (C6) -/

/-- C6 counterexample: stop the session right after the pipeline has
processed the single write `"x"`, so the buffer holds the
freshest-possible transformed code; `stopRecording` nevertheless
returns the artifact file's raw on-disk content `"x"`, not the buffered
code — the precedence stated by the claim is reversed in the code. -/
theorem stopRecording_counterexample :
    (stopRecording
        ⟨true, true, (runWrites (fun c => c) (fun _ => []) false "" [some "x"]).1⟩
        (some "x")).2 = "x" ∧
    (stopRecording
        ⟨true, true, (runWrites (fun c => c) (fun _ => []) false "" [some "x"]).1⟩
        (some "x")).2 ≠
      (runWrites (fun c => c) (fun _ => []) false "" [some "x"]).1 :=
  ⟨rfl, by decide⟩

/-- C6 (amended): `stopRecording` kills the subprocess handle if
present, tears down the watcher, leaves the buffer untouched, and
returns the artifact file's on-disk content whenever the file exists,
falling back to the in-memory buffer only when it does not; running it
a second time is a no-op producing the identical result. -/
theorem stopRecording_spec (s : SessionState) (outputFile : Option String) :
    (stopRecording s outputFile).1.codegenProcess = false ∧
    (stopRecording s outputFile).1.watcher = false ∧
    (stopRecording s outputFile).1.currentCode = s.currentCode ∧
    (stopRecording s outputFile).2 = outputFile.getD s.currentCode ∧
    stopRecording (stopRecording s outputFile).1 outputFile =
      stopRecording s outputFile := by
  rcases s with ⟨p, w, code⟩
  rcases outputFile with _ | c <;> rcases p <;> rcases w <;>
    simp [stopRecording, stopWatching]

/-! ## Extension failure preserves the file (C2) -/

/-- C2: every failing extension attempt — a response with a non-2xx
status, or a transport-level error — leaves the target file's content
byte-identical to its pre-call content; only the success path rewrites
the file. -/
theorem extendScriptWithAPI_failure_preserves (content data msg : String)
    (status : Nat) (parsed : Option JsValue)
    (h : ¬(200 ≤ status ∧ status < 300)) :
    extendScriptWithAPI content (.response status data parsed) = content ∧
    extendScriptWithAPI content (.transportError msg) = content := by
  constructor
  · simp [extendScriptWithAPI, callExtendAPI, h]
  · rfl

/-- Witness for `extendScriptWithAPI_failure_preserves` at status 500
and at a refused connection. -/
theorem extendScriptWithAPI_failure_preserves_witness :
    (¬(200 ≤ 500 ∧ 500 < 300)) ∧
    (extendScriptWithAPI "orig" (.response 500 "err" none) = "orig" ∧
     extendScriptWithAPI "orig" (.transportError "ECONNREFUSED") = "orig") :=
  ⟨by decide,
    extendScriptWithAPI_failure_preserves "orig" "err" "ECONNREFUSED" 500 none (by decide)⟩

/-! ## Success-path response handling (C5)

recorder.js 398 resolves `response.extendedScript || response.script ||
data`: JavaScript `||` tests truthiness, not presence, so a *present
but falsy* field (the empty string) is skipped. -/

/-- C5 counterexample: a 200 response whose body is
`{"extendedScript": ""}` — the `extendedScript` field is present with
value `""` — makes the code write the raw body back, not the field's
value; the file content ends up non-empty, refuting "the field's value
if present". -/
theorem extendScript_empty_field_counterexample :
    extendScriptWithAPI "orig"
      (.response 200 "\x7b\"extendedScript\": \"\"\x7d"
        (some (.vObj [("extendedScript", .vStr "")]))) =
      "\x7b\"extendedScript\": \"\"\x7d" ∧
    ("\x7b\"extendedScript\": \"\"\x7d" : String) ≠ "" :=
  ⟨rfl, by decide⟩

/-- C5 (amended): for every 2xx response the value written is the first
*truthy* operand of `extendedScript-field || script-field || raw body`:
the `extendedScript` field when it is a non-empty string, else the
`script` field when it is a non-empty string, else the raw response
body — also when both fields are absent or falsy, or when JSON parsing
failed; in particular a 200 response carrying
`{"extendedScript": "X"}` leaves the file equal to `"X"` exactly. -/
theorem extendScript_success_spec (status : Nat) (data orig : String) (v : JsValue)
    (h2xx : 200 ≤ status ∧ status < 300) :
    (∀ s : String, s ≠ "" → getProp v "extendedScript" = .vStr s →
      extendScriptWithAPI orig (.response status data (some v)) = s) ∧
    (∀ s : String, jsTruthy (getProp v "extendedScript") = false → s ≠ "" →
      getProp v "script" = .vStr s →
      extendScriptWithAPI orig (.response status data (some v)) = s) ∧
    (jsTruthy (getProp v "extendedScript") = false →
      jsTruthy (getProp v "script") = false →
      extendScriptWithAPI orig (.response status data (some v)) = data) ∧
    (extendScriptWithAPI orig (.response status data none) = data) ∧
    (extendScriptWithAPI "orig" (.response 200 "d"
        (some (.vObj [("extendedScript", .vStr "X")]))) = "X") := by
  have hcall : ∀ p : Option JsValue, callExtendAPI (.response status data p) =
      .ok (resolveExtendResponse data p) := by
    intro p
    simp [callExtendAPI, h2xx]
  refine ⟨?_, ?_, ?_, ?_, rfl⟩
  · intro s hs hfield
    obtain ⟨fields, rfl⟩ : ∃ fields, v = .vObj fields := by
      cases v with
      | vObj fields => exact ⟨fields, rfl⟩
      | vUndefined => exact absurd hfield (by simp [getProp])
      | vNull => exact absurd hfield (by simp [getProp])
      | vBool b => exact absurd hfield (by simp [getProp])
      | vNum n => exact absurd hfield (by simp [getProp])
      | vStr s2 => exact absurd hfield (by simp [getProp])
      | vArr elems => exact absurd hfield (by simp [getProp])
    have hres : resolveExtendResponse data (some (.vObj fields)) = .vStr s := by
      show jsOr (getProp (.vObj fields) "extendedScript")
        (jsOr (getProp (.vObj fields) "script") (.vStr data)) = .vStr s
      rw [hfield]
      simp [jsOr, jsTruthy, hs]
    simp [extendScriptWithAPI, hcall, hres, writeExtended]
  · intro s hfalsy hs hfield
    obtain ⟨fields, rfl⟩ : ∃ fields, v = .vObj fields := by
      cases v with
      | vObj fields => exact ⟨fields, rfl⟩
      | vUndefined => exact absurd hfield (by simp [getProp])
      | vNull => exact absurd hfield (by simp [getProp])
      | vBool b => exact absurd hfield (by simp [getProp])
      | vNum n => exact absurd hfield (by simp [getProp])
      | vStr s2 => exact absurd hfield (by simp [getProp])
      | vArr elems => exact absurd hfield (by simp [getProp])
    have hres : resolveExtendResponse data (some (.vObj fields)) = .vStr s := by
      show jsOr (getProp (.vObj fields) "extendedScript")
        (jsOr (getProp (.vObj fields) "script") (.vStr data)) = .vStr s
      rw [jsOr, hfalsy]
      simp only [Bool.false_eq_true, if_false]
      rw [hfield]
      simp [jsOr, jsTruthy, hs]
    simp [extendScriptWithAPI, hcall, hres, writeExtended]
  · intro hf1 hf2
    have hres : resolveExtendResponse data (some v) = .vStr data := by
      cases v with
      | vUndefined => rfl
      | vNull => rfl
      | vBool b =>
        show jsOr (getProp (.vBool b) "extendedScript")
          (jsOr (getProp (.vBool b) "script") (.vStr data)) = .vStr data
        simp [getProp, jsOr, jsTruthy]
      | vNum n =>
        show jsOr (getProp (.vNum n) "extendedScript")
          (jsOr (getProp (.vNum n) "script") (.vStr data)) = .vStr data
        simp [getProp, jsOr, jsTruthy]
      | vStr s2 =>
        show jsOr (getProp (.vStr s2) "extendedScript")
          (jsOr (getProp (.vStr s2) "script") (.vStr data)) = .vStr data
        simp [getProp, jsOr, jsTruthy]
      | vArr elems =>
        show jsOr (getProp (.vArr elems) "extendedScript")
          (jsOr (getProp (.vArr elems) "script") (.vStr data)) = .vStr data
        simp [getProp, jsOr, jsTruthy]
      | vObj fields =>
        show jsOr (getProp (.vObj fields) "extendedScript")
          (jsOr (getProp (.vObj fields) "script") (.vStr data)) = .vStr data
        rw [jsOr, jsOr, hf1, hf2]
        simp
    simp [extendScriptWithAPI, hcall, hres, writeExtended]
  · simp [extendScriptWithAPI, hcall]
    rfl

/-- Witness for `extendScript_success_spec`: the end-to-end mocked
scenario, status 200 and body `{"extendedScript": "X"}`. -/
theorem extendScript_success_spec_witness :
    (200 ≤ 200 ∧ 200 < 300) ∧
    extendScriptWithAPI "orig"
      (.response 200 "\x7b\"extendedScript\": \"X\"\x7d"
        (some (.vObj [("extendedScript", .vStr "X")]))) = "X" :=
  ⟨by decide,
    (extendScript_success_spec 200 "\x7b\"extendedScript\": \"X\"\x7d" "orig"
      (.vObj [("extendedScript", .vStr "X")]) (by decide)).1 "X" (by decide) rfl⟩

/-! ## Credential store fallback (C8) -/

/-- C8: `getCredentials` falls through to interactive prompting on
every failure mode of the credential file — missing, unreadable, or
unparseable — instead of failing the caller, and the prompt returns the
collected `{email, token}` object to the caller even when persisting it
fails (`persistOk` arbitrary in all three failure conjuncts; the last
conjunct pins the persist-failure case). -/
theorem getCredentials_failure_prompts (parse : String → Option JsValue)
    (email token : String) (persistOk : Bool) :
    (getCredentials .missing parse email token persistOk =
      (.vObj [("email", .vStr email), ("token", .vStr token)], true)) ∧
    (getCredentials .unreadable parse email token persistOk =
      (.vObj [("email", .vStr email), ("token", .vStr token)], true)) ∧
    (∀ s, parse s = none → getCredentials (.content s) parse email token persistOk =
      (.vObj [("email", .vStr email), ("token", .vStr token)], true)) ∧
    ((promptForCredentials email token false).1 =
      .vObj [("email", .vStr email), ("token", .vStr token)]) := by
  refine ⟨rfl, rfl, ?_, rfl⟩
  intro s hs
  simp [getCredentials, hs, promptForCredentials]

/-- Witness for `getCredentials_failure_prompts`: a present credential
file whose text does not parse, with a failing persist. -/
theorem getCredentials_failure_prompts_witness :
    ((fun _ : String => (none : Option JsValue)) "not json" = none) ∧
    getCredentials (.content "not json") (fun _ => none) "a@b.com" "t" false =
      (.vObj [("email", .vStr "a@b.com"), ("token", .vStr "t")], true) :=
  ⟨rfl, (getCredentials_failure_prompts (fun _ => none) "a@b.com" "t" false).2.2.1
    "not json" rfl⟩

/-! ## Editor fallthrough (C9) -/

/-- Candidates that fail to launch are skipped without affecting the
rest of the candidate list. -/
theorem tryTerminalEditor_skip (behavior : String → EditorOutcome) :
    ∀ l1 rest : List String, (∀ x ∈ l1, behavior x = .launchError) →
    tryTerminalEditor behavior (l1 ++ rest) = tryTerminalEditor behavior rest := by
  intro l1
  induction l1 with
  | nil => intro rest _; rfl
  | cons e t ih =>
    intro rest h
    have he := h e (List.mem_cons_self e t)
    show (match behavior e with
      | .launchError => tryTerminalEditor behavior (t ++ rest)
      | .exited c => if c = 0 then .extensionTriggered else .editedWithErrors c) =
        tryTerminalEditor behavior rest
    rw [he]
    exact ih rest (fun x hx => h x (List.mem_cons_of_mem e hx))

/-- When every candidate fails to launch, the editor phase reports that
no terminal editor was found. -/
theorem tryTerminalEditor_all_fail (behavior : String → EditorOutcome) :
    ∀ l : List String, (∀ x ∈ l, behavior x = .launchError) →
    tryTerminalEditor behavior l = .noEditorFound := by
  intro l h
  have := tryTerminalEditor_skip behavior l [] h
  rwa [List.append_nil] at this

/-- C9: the editor subprocess is tried against the ordered candidate
list `nano, vim, vi`, falling through to the next candidate on launch
failure; when every candidate fails to launch the pipeline stops
without extension; the first candidate that launches decides the
outcome — exit code zero triggers the extension step, any nonzero exit
code stops the pipeline without triggering extension. -/
theorem openEditorInTerminal_spec (behavior : String → EditorOutcome) :
    ((∀ e ∈ terminalEditors, behavior e = .launchError) →
      openEditorInTerminal behavior = .noEditorFound) ∧
    (∀ l1 : List String, ∀ e : String, ∀ l2 : List String,
      terminalEditors = l1 ++ e :: l2 →
      (∀ x ∈ l1, behavior x = .launchError) →
      ((behavior e = .exited 0 →
          openEditorInTerminal behavior = .extensionTriggered) ∧
       (∀ c : Int, c ≠ 0 → behavior e = .exited c →
          openEditorInTerminal behavior = .editedWithErrors c ∧
          openEditorInTerminal behavior ≠ .extensionTriggered))) := by
  constructor
  · intro hall
    exact tryTerminalEditor_all_fail behavior terminalEditors hall
  · intro l1 e l2 hsplit hskip
    have hopen : openEditorInTerminal behavior = tryTerminalEditor behavior (e :: l2) := by
      rw [openEditorInTerminal, hsplit, tryTerminalEditor_skip behavior l1 (e :: l2) hskip]
    constructor
    · intro h0
      rw [hopen]
      show (match behavior e with
        | .launchError => tryTerminalEditor behavior l2
        | .exited c => if c = 0 then EditResult.extensionTriggered
          else EditResult.editedWithErrors c) = EditResult.extensionTriggered
      rw [h0]
      simp
    · intro c hc hexit
      have hval : tryTerminalEditor behavior (e :: l2) = .editedWithErrors c := by
        show (match behavior e with
          | .launchError => tryTerminalEditor behavior l2
          | .exited c => if c = 0 then EditResult.extensionTriggered
            else EditResult.editedWithErrors c) = EditResult.editedWithErrors c
        rw [hexit]
        simp [hc]
      rw [hopen, hval]
      exact ⟨rfl, by simp⟩

/-- Witness for `openEditorInTerminal_spec`: `nano` fails to launch,
`vim` launches and exits 0, so the extension step runs. -/
theorem openEditorInTerminal_spec_witness :
    (terminalEditors = ["nano"] ++ "vim" :: ["vi"]) ∧
    openEditorInTerminal
      (fun e => if e = "nano" then .launchError else .exited 0) =
      .extensionTriggered :=
  ⟨rfl,
    ((openEditorInTerminal_spec
        (fun e => if e = "nano" then .launchError else .exited 0)).2
      ["nano"] "vim" ["vi"] rfl (by decide)).1 (by decide)⟩

/-! ## Empty buffer at subprocess close (C10) -/

/-- C10: when the codegen subprocess closes while the buffer is empty
or whitespace-only, the session ends with only the "No code to save"
warning: the filename prompt is never issued, no file is written, and
no editor (hence no extension step) runs; the watcher is torn down and
the rest of the state is untouched. -/
theorem onCodegenClose_empty_buffer (p w : Bool) (code : String)
    (fs : List String) (userInput defaultName : String)
    (h : jsTrim code = "") :
    onCodegenClose ⟨p, w, code⟩ fs userInput defaultName =
      (⟨p, false, code⟩,
       { warnedNoCode := true, filenamePromptIssued := false
         savedFile := none, editorOpened := false }) := by
  cases w <;> simp [onCodegenClose, stopWatching, promptForFilename, h]

/-- Witness for `onCodegenClose_empty_buffer` at a whitespace-only
buffer. -/
theorem onCodegenClose_empty_buffer_witness :
    jsTrim "  \n" = "" ∧
    onCodegenClose ⟨true, true, "  \n"⟩ ["a.js"] "name" "kusho-test-0" =
      (⟨true, false, "  \n"⟩,
       { warnedNoCode := true, filenamePromptIssued := false
         savedFile := none, editorOpened := false }) :=
  ⟨by decide, onCodegenClose_empty_buffer true true "  \n" ["a.js"] "name"
    "kusho-test-0" (by decide)⟩
